import Mathlib

/-!
Verification of the learnPYthon-ML repository scripts.

The Python functions are shallowly embedded as Lean functions: in-place
list mutation becomes explicit list passing, console input becomes a
string parameter, raised exceptions become an explicit result type
(PyResult), and the pandas data frame is abstracted as parsed CSV rows.
Definitions come first, then the theorems settling the specification
claims.
-/

namespace LearnPy

/-!
## Bubble sort, correct-swap version (nd.py lines 10-15, night.py lines
10-15, eye.py lines 6-11 -- the three implementations are identical)

  def bubble_sort(arr):
      n = len(arr)
      for i in range(n):
          for j in range(0, n - i - 1):
              if arr[j] > arr[j + 1]:
                  arr[j], arr[j + 1] = arr[j + 1], arr[j]

The inner loop walks a comparison window left to right; it is embedded as
a fueled recursion whose fuel is the number of comparisons n - i - 1, and
the outer loop as a fold over List.range n.
-/

/-- One inner pass of bubble sort with c comparisons: for j in
range(0, c): if arr[j] > arr[j+1], swap arr[j] and arr[j+1]. -/
def innerPass : Nat → List Int → List Int
  | 0, l => l
  | _ + 1, [] => []
  | _ + 1, [x] => [x]
  | c + 1, x :: y :: rest =>
    if x > y then y :: innerPass c (x :: rest) else x :: innerPass c (y :: rest)

/-- bubble_sort of nd.py, night.py and eye.py: n = len(arr); for i in
range(n), run the inner pass with n - i - 1 comparisons. The function
returns the final contents of the mutated list. -/
def bubble_sort (arr : List Int) : List Int :=
  (List.range arr.length).foldl (fun l i => innerPass (arr.length - i - 1) l) arr

/-!
## Bubble sort of shree.py (lines 8-13)

Identical loop structure, but the swap line reads

      arr[j], arr[j + 1] = arr[j], arr[j]

Python evaluates the right-hand side tuple first, so this assigns the old
arr[j] to both positions: position j keeps x and position j+1 is
overwritten with x.
-/

/-- One inner pass of shree.py bubble_sort with c comparisons: for j in
range(0, c): if arr[j] > arr[j+1], set both arr[j] and arr[j+1] to the
old arr[j]. -/
def shreeInnerPass : Nat → List Int → List Int
  | 0, l => l
  | _ + 1, [] => []
  | _ + 1, [x] => [x]
  | c + 1, x :: y :: rest =>
    if x > y then x :: shreeInnerPass c (x :: rest)
    else x :: shreeInnerPass c (y :: rest)

/-- bubble_sort of shree.py: same outer loops, broken swap. -/
def shree_bubble_sort (arr : List Int) : List Int :=
  (List.range arr.length).foldl
    (fun l i => shreeInnerPass (arr.length - i - 1) l) arr

/-!
## Merge sort (nd.py lines 17-40, shree.py lines 16-43, eye.py lines
13-40 -- the three implementations are identical)

The Python code copies the two halves arr[:mid] and arr[mid:], sorts them
recursively, then writes the merge back into arr: while both halves have
elements left it takes left_half[i] when left_half[i] < right_half[j] and
right_half[j] otherwise, then copies whichever half remains.
-/

/-- The merge-back loops of merge_sort: take the left element when it is
strictly smaller, otherwise the right one; then drain the remainder. -/
def merge : List Int → List Int → List Int
  | [], ys => ys
  | x :: xs, [] => x :: xs
  | x :: xs, y :: ys =>
    if x < y then x :: merge xs (y :: ys) else y :: merge (x :: xs) ys

/-- merge_sort of nd.py, shree.py and eye.py: if len(arr) > 1, split at
mid = len(arr) // 2, sort both halves, merge back. The function returns
the final contents of the mutated list. -/
def merge_sort (arr : List Int) : List Int :=
  if arr.length > 1 then
    merge (merge_sort (arr.take (arr.length / 2)))
      (merge_sort (arr.drop (arr.length / 2)))
  else arr
termination_by arr.length
decreasing_by
  · simp only [List.length_take]
    omega
  · simp only [List.length_drop]
    omega

/-!
## Quick sort (nd.py lines 42-49)

  def quick_sort(arr):
      if len(arr) <= 1:
          return arr
      pivot = arr[len(arr) // 2]
      left = [x for x in arr if x < pivot]
      middle = [x for x in arr if x == pivot]
      right = [x for x in arr if x > pivot]
      return quick_sort(left) + middle + quick_sort(right)

The index len(arr) // 2 is always in range when len(arr) > 1, so the
indexing is embedded with getD (the default is never reached).
-/

/-- quick_sort of nd.py: filter around the middle element and recurse. -/
def quick_sort (arr : List Int) : List Int :=
  if arr.length ≤ 1 then arr
  else
    let pivot := arr.getD (arr.length / 2) 0
    quick_sort (arr.filter fun x => decide (x < pivot)) ++
      (arr.filter fun x => decide (x = pivot)) ++
      quick_sort (arr.filter fun x => decide (x > pivot))
termination_by arr.length
decreasing_by
  · refine List.length_filter_lt_length_iff_exists.mpr
      ⟨arr.getD (arr.length / 2) 0, ?_, by simp⟩
    rw [List.getD_eq_get?]
    have hlt : arr.length / 2 < arr.length := by omega
    rw [List.get?_eq_get hlt]
    exact List.get_mem _ _ _
  · refine List.length_filter_lt_length_iff_exists.mpr
      ⟨arr.getD (arr.length / 2) 0, ?_, by simp⟩
    rw [List.getD_eq_get?]
    have hlt : arr.length / 2 < arr.length := by omega
    rw [List.get?_eq_get hlt]
    exact List.get_mem _ _ _

/-!
## Python exceptions, int() parsing, and the console scripts

A Python call that can raise is embedded as a PyResult value: ok carries
the normal return value, exn a raised exception that was not caught at
this level.
-/

/-- The exceptions the scripts distinguish. otherError stands for any
further exception class (pandas parse errors, etc.). -/
inductive PyExn
  | valueError
  | fileNotFoundError
  | otherError
deriving DecidableEq

/-- Result of running a piece of Python code: a value or an uncaught
exception propagating to the caller. -/
inductive PyResult (α : Type)
  | ok (a : α)
  | exn (e : PyExn)
deriving DecidableEq

/-- Numeric value of a digit string, most significant first. -/
def digitsVal (cs : List Char) : Int :=
  cs.foldl (fun n c => 10 * n + ((c.toNat : Int) - 48)) 0

/-- Core of Python int(str): an optional sign followed by a nonempty run
of digits parses; anything else raises ValueError. -/
def py_int_core (cs : List Char) : PyResult Int :=
  match cs with
  | '-' :: rest =>
    if rest ≠ [] ∧ rest.all Char.isDigit then .ok (-(digitsVal rest))
    else .exn .valueError
  | '+' :: rest =>
    if rest ≠ [] ∧ rest.all Char.isDigit then .ok (digitsVal rest)
    else .exn .valueError
  | _ =>
    if cs ≠ [] ∧ cs.all Char.isDigit then .ok (digitsVal cs)
    else .exn .valueError

/-- Leading and trailing whitespace removal, as Python int() applies to
its argument before parsing. -/
def py_strip (cs : List Char) : List Char :=
  ((cs.dropWhile Char.isWhitespace).reverse.dropWhile Char.isWhitespace).reverse

/-- Python int(input(...)): surrounding whitespace is stripped, then the
text must be an optionally signed digit run, else ValueError is raised. -/
def py_int (s : String) : PyResult Int :=
  py_int_core (py_strip s.toList)

/-- The actions the main menu of ml_procedural.py (lines 160-193) can take
after reading a choice. -/
inductive MlAction
  | display
  | chooseAlgo
  | compareTwo
  | compareAll
  | exitLoop
  | invalid
deriving DecidableEq

/-- One iteration of the menu loop of ml_procedural.py (lines 160-193):
choice = int(input("Enter your choice: ")) has no try/except anywhere on
its call path, so a ValueError from the parse propagates; a parsed choice
dispatches on its integer value. -/
def ml_menu_step (input : String) : PyResult MlAction :=
  match py_int input with
  | .exn e => .exn e
  | .ok choice =>
    .ok (if choice = 1 then .display
      else if choice = 2 then .chooseAlgo
      else if choice = 3 then .compareTwo
      else if choice = 4 then .compareAll
      else if choice = 5 then .exitLoop
      else .invalid)

/-- display_data of ml_procedural.py (lines 29-36): the parse of the row
count is wrapped in try/except ValueError; on success the count is
clamped to 200 and passed to data.head; on ValueError a message is
printed and the function returns normally (modelled as ok none). -/
def ml_display_data (input : String) : PyResult (Option Int) :=
  match py_int input with
  | .ok n => .ok (some (if n > 200 then 200 else n))
  | .exn .valueError => .ok none
  | .exn e => .exn e

/-- display_data of analyiz.py (lines 23-25): num_rows = int(input(...))
with no try/except, so a ValueError propagates to the caller. -/
def analyiz_display_data (input : String) : PyResult Int :=
  py_int input

/-- display_data of 4.py (lines 49-51): rows_to_display = int(input(...))
with no try/except inside the function, so a ValueError propagates. -/
def four_display_data (input : String) : PyResult Int :=
  py_int input

/-- The algorithm submenu inside the menu's choice-2 branch of
ml_procedural.py (lines 172-180): algo_choice = int(input("Choose an
algorithm: ")) has no try/except, so a ValueError propagates; parsed
values 1, 2, 3 dispatch to the corresponding function and any other
value does nothing. -/
def ml_choose_algorithm (input : String) : PyResult (Option String) :=
  match py_int input with
  | .exn e => .exn e
  | .ok n =>
    .ok (if n = 1 then some "linear_regression"
      else if n = 2 then some "knn"
      else if n = 3 then some "kmeans_regression"
      else none)

/-- compare_two_algorithms of ml_procedural.py (lines 115-130): both
algo1 = int(input(...)) and algo2 = int(input(...)) are parsed with no
try/except, so a ValueError from either parse propagates (a failing
first parse aborts before the second prompt is read); parsed values 1
and 2 select the algorithms to run and any other value runs nothing. -/
def ml_compare_two_algorithms (input1 input2 : String) :
    PyResult (Option String × Option String) :=
  match py_int input1 with
  | .exn e => .exn e
  | .ok algo1 =>
    match py_int input2 with
    | .exn e => .exn e
    | .ok algo2 =>
      .ok (if algo1 = 1 then some "linear_regression"
          else if algo1 = 2 then some "knn" else none,
        if algo2 = 1 then some "linear_regression"
          else if algo2 = 2 then some "knn" else none)

/-- The rows-to-print clamp of ml_procedural.py display_data (lines
31-33): if num_rows > 200: num_rows = 200. -/
def display_rows_clamp (n : Int) : Int :=
  if n > 200 then 200 else n

/-- Number of rows pandas data.head(n) yields on a frame of total rows:
the first min(n, total) rows for n >= 0, all but the last -n rows for
negative n. -/
def pandas_head_count (n : Int) (total : Nat) : Nat :=
  if 0 ≤ n then min n.toNat total else total - min total (-n).toNat

/-- Rows of a parsed CSV file, standing in for the pandas data frame. -/
abbrev DataFrame := List (List String)

/-- load_data of analyiz.py (lines 13-20) and ml_procedural.py (lines
12-26): pd.read_csv is attempted inside try ... except FileNotFoundError.
The read outcome is abstracted as a function from the path to a PyResult.
Success prints the loaded message and returns the frame; FileNotFoundError
is caught, prints an error and returns None; any other exception is not
caught and propagates. The second component is the console output. -/
def load_data (read : String → PyResult DataFrame) (file_path : String) :
    PyResult (Option DataFrame) × List String :=
  match read file_path with
  | .ok df => (.ok (some df), ["File loaded successfully."])
  | .exn .fileNotFoundError =>
    (.ok none, ["Error: The file " ++ file_path ++ " does not exist."])
  | .exn e => (.exn e, [])

/-!
## The keylogger (game_key_logger.py)
-/

/-- Keys as pynput delivers them: the escape key, a character key, or any
other special key described by its name. -/
inductive PKey
  | esc
  | char (c : Char)
  | special (s : String)
deriving DecidableEq

/-- The text logged for a key: key.char for character keys, str(key) for
special keys (lines 7-10). -/
def key_data : PKey → String
  | .char c => String.singleton c
  | .esc => "Key.esc"
  | .special s => s

/-- on_press (lines 6-18): logs the key and falls off the end, implicitly
returning None. The timestamp prefix of the log line is omitted. -/
def on_press (k : PKey) : Option Bool × String :=
  (none, "Key Pressed: " ++ key_data k)

/-- on_release (lines 20-24): returns False when the released key is
keyboard.Key.esc, otherwise falls off the end returning None. -/
def on_release (k : PKey) : Option Bool :=
  if k = PKey.esc then some false else none

/-- An input event delivered to the listener. -/
inductive KEvent
  | press (k : PKey)
  | release (k : PKey)
deriving DecidableEq

/-- The callback return value the listener sees for an event. -/
def handler_result : KEvent → Option Bool
  | .press k => (on_press k).1
  | .release k => on_release k

/-- Modelled from the spec: "The keylogger runs an OS-level blocking input
listener until an escape key is detected" -- pynput's Listener (not part
of the repository source) invokes the callbacks on each event and stops as
soon as a callback returns False. The run returns the events actually
handled and whether the listener stopped. -/
def listener_run : List KEvent → List KEvent × Bool
  | [] => ([], false)
  | e :: rest =>
    if handler_result e = some false then ([e], true)
    else
      let r := listener_run rest
      (e :: r.1, r.2)

/-!
## The console menus (analyiz.py lines 186-231, shree.py lines 54-68)
-/

/-- What one menu iteration does with the choice the user typed. -/
inductive MenuOutcome
  | dispatch (target : String)
  | exited
  | invalid
deriving DecidableEq

/-- One iteration of the menu loop of analyiz.py (lines 186-231): choices
1-4 dispatch (choice 2 enters the inline algorithm submenu), choice 5
breaks the loop, anything else prints the invalid-choice message and the
loop re-displays the menu. -/
def analyiz_menu_step (choice : String) : MenuOutcome :=
  if choice = "1" then .dispatch "display_data"
  else if choice = "2" then .dispatch "choose_algorithm"
  else if choice = "3" then .dispatch "compare_two_algorithms"
  else if choice = "4" then .dispatch "compare_all_algorithms"
  else if choice = "5" then .exited
  else .invalid

/-- One iteration of the menu loop of shree.py (lines 54-68): 1 runs the
analysis, 2 opens the chart menu, 3 breaks the loop, anything else prints
the invalid-choice message. -/
def shree_menu_step (choice : String) : MenuOutcome :=
  if choice = "1" then .dispatch "run_analysis"
  else if choice = "2" then .dispatch "chart_menu"
  else if choice = "3" then .exited
  else .invalid

/-- The while True menu loop driven by a finite sequence of console
inputs: it returns the outcome trace when some input breaks the loop, and
none when the inputs run out with the loop still blocked on input. -/
def menu_loop (step : String → MenuOutcome) : List String → Option (List MenuOutcome)
  | [] => none
  | c :: rest =>
    match step c with
    | .exited => some [.exited]
    | o => (menu_loop step rest).map (o :: ·)

/-!
## The sales-bonus calculator of 4.py (lines 162-204)
-/

/-- One bonus slab: the Python dict with keys min, max, bonus. Sales
amounts are modelled as rationals. -/
structure Slab where
  min : ℚ
  max : ℚ
  bonus : ℕ
deriving DecidableEq

/-- bonus_slabs of 4.py (lines 162-167). -/
def bonus_slabs : List Slab :=
  [⟨0, 5, 0⟩, ⟨5, 10, 10⟩, ⟨10, 15, 12⟩, ⟨15, 999, 15⟩]

/-- The rupees-to-lakh conversion (lines 190-195): raw input strictly
greater than 1000 is treated as rupees and divided by 100000. -/
def to_lakh (raw : ℚ) : ℚ :=
  if raw > 1000 then raw / 100000 else raw

/-- The slab-matching loop (lines 198-202): matched_bonus starts at 0 and
the loop breaks at the first slab with min <= value < max. -/
def matched_bonus : List Slab → ℚ → ℕ
  | [], _ => 0
  | s :: rest, v =>
    if s.min ≤ v ∧ v < s.max then s.bonus else matched_bonus rest v

/-- The claim wording, as a separate definition for the refinement proof:
the rate of the first slab whose half-open interval contains the value,
defaulting to 0 when no slab contains it. -/
def first_slab_rate (v : ℚ) : ℕ :=
  ((bonus_slabs.find? fun s => decide (s.min ≤ v ∧ v < s.max)).map Slab.bonus).getD 0

end LearnPy

namespace LearnPy

/-!
## Helper lemmas for bubble sort
-/

theorem innerPass_perm : ∀ (c : Nat) (l : List Int), (innerPass c l).Perm l := by
  intro c
  induction c with
  | zero => intro l; simp [innerPass]
  | succ c ih =>
    intro l
    match l with
    | [] => simp [innerPass]
    | [x] => simp [innerPass]
    | x :: y :: rest =>
      rw [innerPass]
      by_cases hxy : x > y
      · simp only [if_pos hxy]
        exact ((ih (x :: rest)).cons y).trans (List.Perm.swap x y rest)
      · simp only [if_neg hxy]
        exact (ih (y :: rest)).cons x

theorem innerPass_max : ∀ (c : Nat) (l : List Int), l ≠ [] → l.length ≤ c + 1 →
    ∃ l' m, innerPass c l = l' ++ [m] ∧ ∀ x ∈ l, x ≤ m := by
  intro c
  induction c with
  | zero =>
    intro l hne hlen
    match l with
    | [x] => exact ⟨[], x, by simp [innerPass], by simp⟩
    | x :: y :: rest => simp at hlen
  | succ c ih =>
    intro l hne hlen
    match l with
    | [] => exact absurd rfl hne
    | [x] => exact ⟨[], x, by simp [innerPass], by simp⟩
    | x :: y :: rest =>
      rw [innerPass]
      by_cases hxy : x > y
      · simp only [if_pos hxy]
        obtain ⟨l', m, heq, hmax⟩ := ih (x :: rest) (by simp)
          (by simp at hlen ⊢; omega)
        refine ⟨y :: l', m, by rw [heq]; rfl, ?_⟩
        intro z hz
        have hxm : x ≤ m := hmax x (by simp)
        rcases List.mem_cons.mp hz with rfl | hz'
        · exact hxm
        rcases List.mem_cons.mp hz' with rfl | hz''
        · exact le_trans (le_of_lt hxy) hxm
        · exact hmax z (by simp [hz''])
      · simp only [if_neg hxy]
        obtain ⟨l', m, heq, hmax⟩ := ih (y :: rest) (by simp)
          (by simp at hlen ⊢; omega)
        refine ⟨x :: l', m, by rw [heq]; rfl, ?_⟩
        intro z hz
        have hym : y ≤ m := hmax y (by simp)
        rcases List.mem_cons.mp hz with rfl | hz'
        · exact le_trans (le_of_not_lt hxy) hym
        rcases List.mem_cons.mp hz' with rfl | hz''
        · exact hym
        · exact hmax z (by simp [hz''])

theorem innerPass_append : ∀ (c : Nat) (p s : List Int), p.length = c + 1 →
    innerPass c (p ++ s) = innerPass c p ++ s := by
  intro c
  induction c with
  | zero =>
    intro p s hp
    match p with
    | [a] => simp [innerPass]
  | succ c ih =>
    intro p s hp
    match p with
    | [] => simp at hp
    | [x] => simp at hp
    | x :: y :: p' =>
      have hp' : (x :: p').length = c + 1 := by simp at hp ⊢; omega
      have hp'' : (y :: p').length = c + 1 := by simp at hp ⊢; omega
      simp only [List.cons_append]
      rw [innerPass, innerPass]
      by_cases hxy : x > y
      · simp only [if_pos hxy]
        rw [show x :: (p' ++ s) = (x :: p') ++ s from rfl, ih (x :: p') s hp']
        rfl
      · simp only [if_neg hxy]
        rw [show y :: (p' ++ s) = (y :: p') ++ s from rfl, ih (y :: p') s hp'']
        rfl

theorem bubble_loop_perm (n : Nat) : ∀ (k i : Nat) (l : List Int),
    ((List.range' i k).foldl (fun acc j => innerPass (n - j - 1) acc) l).Perm l := by
  intro k
  induction k with
  | zero => intro i l; simp
  | succ k ih =>
    intro i l
    rw [List.range'_succ]
    simp only [List.foldl_cons]
    exact (ih (i + 1) _).trans (innerPass_perm _ l)

theorem bubble_loop_sorted (n : Nat) : ∀ (k i : Nat) (l : List Int),
    i + k = n → l.length = n →
    (l.drop (n - i)).Sorted (· ≤ ·) →
    (∀ a ∈ l.take (n - i), ∀ b ∈ l.drop (n - i), a ≤ b) →
    ((List.range' i k).foldl (fun acc j => innerPass (n - j - 1) acc) l).Sorted (· ≤ ·) := by
  intro k
  induction k with
  | zero =>
    intro i l hik hlen hs _
    have h0 : n - i = 0 := by omega
    rw [h0, List.drop_zero] at hs
    simpa using hs
  | succ k ih =>
    intro i l hik hlen hs hle
    rw [List.range'_succ]
    simp only [List.foldl_cons]
    have hin : i < n := by omega
    have hpl : (l.take (n - i)).length = n - i := by
      rw [List.length_take]; omega
    have hsplit : l = l.take (n - i) ++ l.drop (n - i) :=
      (List.take_append_drop _ l).symm
    have hfuel : (l.take (n - i)).length = (n - i - 1) + 1 := by omega
    have h1 : innerPass (n - i - 1) l
        = innerPass (n - i - 1) (l.take (n - i)) ++ l.drop (n - i) := by
      conv_lhs => rw [hsplit]
      exact innerPass_append _ _ _ hfuel
    obtain ⟨l', m, heq, hmax⟩ := innerPass_max (n - i - 1) (l.take (n - i))
      (by intro hemp; rw [hemp] at hpl; simp at hpl; omega)
      (by omega)
    have hperm : (l' ++ [m]).Perm (l.take (n - i)) := heq ▸ innerPass_perm _ _
    have hl' : l'.length = n - i - 1 := by
      have hlp := hperm.length_eq
      simp at hlp
      omega
    have hL : innerPass (n - i - 1) l = l' ++ ([m] ++ l.drop (n - i)) := by
      rw [h1, heq, List.append_assoc]
    have hdl : (l.drop (n - i)).length = i := by
      rw [List.length_drop, hlen]; omega
    have hidx : n - (i + 1) = l'.length := by omega
    have hdrop : (innerPass (n - i - 1) l).drop (n - (i + 1))
        = m :: l.drop (n - i) := by
      rw [hL, hidx, List.drop_left]
      rfl
    have htake : (innerPass (n - i - 1) l).take (n - (i + 1)) = l' := by
      rw [hL, hidx, List.take_left]
    have hmm : m ∈ l.take (n - i) := hperm.mem_iff.mp (by simp)
    apply ih (i + 1)
    · omega
    · rw [hL]
      simp
      omega
    · rw [hdrop, List.sorted_cons]
      exact ⟨fun b hb => hle m hmm b hb, hs⟩
    · rw [htake, hdrop]
      intro a ha b hb
      have ha' : a ∈ l.take (n - i) := hperm.mem_iff.mp (by simp [ha])
      rcases List.mem_cons.mp hb with rfl | hb'
      · exact hmax a ha'
      · exact hle a ha' b hb'

/-!
## Helper lemmas for merge sort
-/

theorem merge_perm : ∀ (xs ys : List Int), (merge xs ys).Perm (xs ++ ys) := by
  intro xs ys
  induction xs, ys using merge.induct with
  | case1 ys => simp [merge]
  | case2 x xs => simp [merge]
  | case3 x xs y ys h ih =>
    rw [merge, if_pos h]
    exact ih.cons x
  | case4 x xs y ys h ih =>
    rw [merge, if_neg h]
    exact (ih.cons y).trans List.perm_middle.symm

theorem merge_sorted : ∀ (xs ys : List Int), xs.Sorted (· ≤ ·) → ys.Sorted (· ≤ ·) →
    (merge xs ys).Sorted (· ≤ ·) := by
  intro xs ys
  induction xs, ys using merge.induct with
  | case1 ys => intro _ h; simpa [merge] using h
  | case2 x xs => intro h _; simpa [merge] using h
  | case3 x xs y ys h ih =>
    intro hx hy
    rw [merge, if_pos h, List.sorted_cons]
    rw [List.sorted_cons] at hx
    refine ⟨?_, ih hx.2 hy⟩
    intro z hz
    have hz' : z ∈ xs ++ y :: ys := (merge_perm xs (y :: ys)).mem_iff.mp hz
    rcases List.mem_append.mp hz' with hz1 | hz2
    · exact hx.1 z hz1
    rcases List.mem_cons.mp hz2 with rfl | hz3
    · exact le_of_lt h
    · exact le_trans (le_of_lt h) ((List.sorted_cons.mp hy).1 z hz3)
  | case4 x xs y ys h ih =>
    intro hx hy
    rw [merge, if_neg h, List.sorted_cons]
    rw [List.sorted_cons] at hy
    refine ⟨?_, ih hx hy.2⟩
    intro z hz
    have hyx : y ≤ x := le_of_not_lt h
    have hz' : z ∈ (x :: xs) ++ ys := (merge_perm (x :: xs) ys).mem_iff.mp hz
    rcases List.mem_append.mp hz' with hz1 | hz2
    · rcases List.mem_cons.mp hz1 with rfl | hz3
      · exact hyx
      · exact le_trans hyx ((List.sorted_cons.mp hx).1 z hz3)
    · exact hy.1 z hz2

end LearnPy

namespace LearnPy

/-!
## Helper lemmas for quick sort
-/

theorem pivot_mem (arr : List Int) (h : ¬ arr.length ≤ 1) :
    arr.getD (arr.length / 2) 0 ∈ arr := by
  rw [List.getD_eq_get?]
  have hlt : arr.length / 2 < arr.length := by omega
  rw [List.get?_eq_get hlt]
  exact List.get_mem _ _ _

theorem count_filter_eq (p : Int → Bool) (a : Int) (l : List Int) :
    List.count a (l.filter p) = if p a then List.count a l else 0 := by
  by_cases h : p a
  · simp [List.count_filter h, h]
  · simp only [h, if_false]
    exact List.count_eq_zero_of_not_mem (fun hm => h (List.of_mem_filter hm))

theorem quick_sort_perm_aux : ∀ (n : Nat) (l : List Int), l.length ≤ n →
    (quick_sort l).Perm l := by
  intro n
  induction n with
  | zero =>
    intro l hl
    have : l = [] := List.length_eq_zero.mp (by omega)
    subst this
    rw [quick_sort, if_pos (by simp)]
  | succ n ih =>
    intro l hl
    by_cases h1 : l.length ≤ 1
    · rw [quick_sort, if_pos h1]
    · rw [quick_sort, if_neg h1]
      have hpm := pivot_mem l h1
      have hlt : (l.filter fun x => decide (x < l.getD (l.length / 2) 0)).length < l.length :=
        List.length_filter_lt_length_iff_exists.mpr ⟨_, hpm, by simp⟩
      have hgt : (l.filter fun x => decide (x > l.getD (l.length / 2) 0)).length < l.length :=
        List.length_filter_lt_length_iff_exists.mpr ⟨_, hpm, by simp⟩
      rw [List.perm_iff_count]
      intro a
      have c1 := (ih (l.filter fun x => decide (x < l.getD (l.length / 2) 0))
        (by omega)).count_eq a
      have c3 := (ih (l.filter fun x => decide (x > l.getD (l.length / 2) 0))
        (by omega)).count_eq a
      rw [List.count_append, List.count_append, c1, c3,
        count_filter_eq, count_filter_eq, count_filter_eq]
      rcases lt_trichotomy a (l.getD (l.length / 2) 0) with hc | hc | hc
      · rw [if_pos (by simpa using hc),
          if_neg (by simp only [decide_eq_true_eq]; omega),
          if_neg (by simp only [decide_eq_true_eq]; omega)]
        omega
      · rw [if_neg (by simp only [decide_eq_true_eq]; omega),
          if_pos (by simpa using hc),
          if_neg (by simp only [decide_eq_true_eq]; omega)]
        omega
      · rw [if_neg (by simp only [decide_eq_true_eq]; omega),
          if_neg (by simp only [decide_eq_true_eq]; omega),
          if_pos (by simpa using hc)]
        omega

theorem sorted_of_all_eq (v : Int) : ∀ (l : List Int), (∀ x ∈ l, x = v) →
    l.Sorted (· ≤ ·) := by
  intro l
  induction l with
  | nil => intro _; simp
  | cons x xs ih =>
    intro h
    rw [List.sorted_cons]
    refine ⟨?_, ih fun z hz => h z (by simp [hz])⟩
    intro b hb
    rw [h x (by simp), h b (by simp [hb])]

theorem quick_sort_sorted_aux : ∀ (n : Nat) (l : List Int), l.length ≤ n →
    (quick_sort l).Sorted (· ≤ ·) := by
  intro n
  induction n with
  | zero =>
    intro l hl
    have : l = [] := List.length_eq_zero.mp (by omega)
    subst this
    rw [quick_sort, if_pos (by simp)]
    simp
  | succ n ih =>
    intro l hl
    by_cases h1 : l.length ≤ 1
    · rw [quick_sort, if_pos h1]
      match l with
      | [] => simp
      | [x] => simp
      | x :: y :: rest => simp at h1
    · rw [quick_sort, if_neg h1]
      have hpm := pivot_mem l h1
      have hlt : (l.filter fun x => decide (x < l.getD (l.length / 2) 0)).length < l.length :=
        List.length_filter_lt_length_iff_exists.mpr ⟨_, hpm, by simp⟩
      have hgt : (l.filter fun x => decide (x > l.getD (l.length / 2) 0)).length < l.length :=
        List.length_filter_lt_length_iff_exists.mpr ⟨_, hpm, by simp⟩
      have hsl := ih (l.filter fun x => decide (x < l.getD (l.length / 2) 0)) (by omega)
      have hsr := ih (l.filter fun x => decide (x > l.getD (l.length / 2) 0)) (by omega)
      have hml : ∀ z ∈ quick_sort (l.filter fun x => decide (x < l.getD (l.length / 2) 0)),
          z < l.getD (l.length / 2) 0 := by
        intro z hz
        have := (quick_sort_perm_aux _ _ le_rfl).mem_iff.mp hz
        simpa using List.of_mem_filter this
      have hmr : ∀ z ∈ quick_sort (l.filter fun x => decide (x > l.getD (l.length / 2) 0)),
          l.getD (l.length / 2) 0 < z := by
        intro z hz
        have := (quick_sort_perm_aux _ _ le_rfl).mem_iff.mp hz
        simpa using List.of_mem_filter this
      rw [List.Sorted, List.pairwise_append, ← List.Sorted]
      refine ⟨?_, ?_, ?_⟩
      · rw [List.Sorted, List.pairwise_append, ← List.Sorted]
        refine ⟨hsl,
          sorted_of_all_eq _ _ (fun z hz => by simpa using List.of_mem_filter hz), ?_⟩
        intro a ha b hb
        have hb' : b = l.getD (l.length / 2) 0 := by simpa using List.of_mem_filter hb
        rw [hb']
        exact le_of_lt (hml a ha)
      · exact hsr
      · intro a ha b hb
        rcases List.mem_append.mp ha with ha1 | ha2
        · exact le_of_lt (lt_trans (hml a ha1) (hmr b hb))
        · have ha' : a = l.getD (l.length / 2) 0 := by simpa using List.of_mem_filter ha2
          rw [ha']
          exact le_of_lt (hmr b hb)

end LearnPy

namespace LearnPy

/-!
## Helper lemmas for the scripts around the sorts
-/

theorem load_data_cases (read : String → PyResult DataFrame) (path : String) :
    (∀ df, (load_data read path).1 = PyResult.ok (some df) ↔ read path = PyResult.ok df) ∧
    ((load_data read path).1 = PyResult.ok none
      ↔ read path = PyResult.exn PyExn.fileNotFoundError) ∧
    (∀ e, (load_data read path).1 = PyResult.exn e
      ↔ (read path = PyResult.exn e ∧ e ≠ PyExn.fileNotFoundError)) := by
  rcases hr : read path with df | e
  · refine ⟨?_, ?_, ?_⟩ <;> simp [load_data, hr]
  · cases e <;> refine ⟨?_, ?_, ?_⟩ <;> simp [load_data, hr]

theorem analyiz_exited_iff (c : String) : analyiz_menu_step c = .exited ↔ c = "5" := by
  unfold analyiz_menu_step
  split_ifs with h1 h2 h3 h4 h5 <;> simp_all

theorem shree_exited_iff (c : String) : shree_menu_step c = .exited ↔ c = "3" := by
  unfold shree_menu_step
  split_ifs with h1 h2 h3 <;> simp_all

theorem analyiz_invalid_iff (c : String) :
    analyiz_menu_step c = .invalid ↔ c ∉ (["1", "2", "3", "4", "5"] : List String) := by
  unfold analyiz_menu_step
  split_ifs with h1 h2 h3 h4 h5 <;> simp_all

theorem shree_invalid_iff (c : String) :
    shree_menu_step c = .invalid ↔ c ∉ (["1", "2", "3"] : List String) := by
  unfold shree_menu_step
  split_ifs with h1 h2 h3 <;> simp_all

theorem menu_loop_isSome (step : String → MenuOutcome) (exitc : String)
    (hstep : ∀ c, step c = .exited ↔ c = exitc) :
    ∀ inputs : List String, (menu_loop step inputs).isSome ↔ exitc ∈ inputs := by
  intro inputs
  induction inputs with
  | nil => simp [menu_loop]
  | cons c rest ih =>
    by_cases hc : step c = .exited
    · rw [menu_loop]
      rw [hc]
      simp only [Option.isSome_some, true_iff]
      exact List.mem_cons.mpr (Or.inl ((hstep c).mp hc).symm)
    · have hne : c ≠ exitc := fun h => hc ((hstep c).mpr h)
      rw [menu_loop]
      rcases ho : step c with t | _ | _
      · rw [show (Option.map (fun x => MenuOutcome.dispatch t :: x)
            (menu_loop step rest)).isSome = (menu_loop step rest).isSome by
          cases menu_loop step rest <;> rfl]
        rw [ih, List.mem_cons]
        constructor
        · exact Or.inr
        · rintro (rfl | h)
          · exact absurd ho (by simpa using fun hh => hne rfl)
          · exact h
      · exact absurd ho hc
      · rw [show (Option.map (fun x => MenuOutcome.invalid :: x)
            (menu_loop step rest)).isSome = (menu_loop step rest).isSome by
          cases menu_loop step rest <;> rfl]
        rw [ih, List.mem_cons]
        constructor
        · exact Or.inr
        · rintro (rfl | h)
          · exact absurd ((hstep _).mpr rfl) (ho ▸ by simp)
          · exact h

theorem on_release_false_iff (k : PKey) : on_release k = some false ↔ k = PKey.esc := by
  unfold on_release
  split_ifs with h <;> simp [h]

theorem handler_result_false_iff (e : KEvent) :
    handler_result e = some false ↔ e = KEvent.release PKey.esc := by
  cases e with
  | press k => simp [handler_result, on_press]
  | release k => simp [handler_result, on_release_false_iff k]

theorem listener_stops_iff : ∀ evs : List KEvent,
    (listener_run evs).2 = true ↔ KEvent.release PKey.esc ∈ evs := by
  intro evs
  induction evs with
  | nil => simp [listener_run]
  | cons e rest ih =>
    by_cases he : handler_result e = some false
    · rw [listener_run, if_pos he]
      simpa using Or.inl ((handler_result_false_iff e).mp he).symm
    · rw [listener_run, if_neg he]
      simp only []
      rw [List.mem_cons, ih]
      constructor
      · exact Or.inr
      · rintro (rfl | h)
        · exact absurd ((handler_result_false_iff _).mpr rfl) he
        · exact h

theorem listener_press_step (k : PKey) (evs : List KEvent) :
    listener_run (KEvent.press k :: evs)
      = (KEvent.press k :: (listener_run evs).1, (listener_run evs).2) := by
  rw [listener_run, if_neg (by simp [handler_result, on_press])]

theorem listener_release_step (k : PKey) (evs : List KEvent) :
    listener_run (KEvent.release k :: evs)
      = if k = PKey.esc then ([KEvent.release k], true)
        else (KEvent.release k :: (listener_run evs).1, (listener_run evs).2) := by
  by_cases hk : k = PKey.esc
  · rw [listener_run, if_pos (by simp [handler_result, on_release, hk]), if_pos hk]
  · rw [listener_run, if_neg (by simp [handler_result, on_release, hk]), if_neg hk]

theorem matched_bonus_eq_find (v : ℚ) : ∀ slabs : List Slab,
    matched_bonus slabs v
      = (((slabs.find? fun s => decide (s.min ≤ v ∧ v < s.max)).map Slab.bonus).getD 0) := by
  intro slabs
  induction slabs with
  | nil => simp [matched_bonus]
  | cons s rest ih =>
    by_cases h : s.min ≤ v ∧ v < s.max
    · rw [matched_bonus, if_pos h, List.find?_cons_of_pos _ (by simpa using h)]
      rfl
    · rw [matched_bonus, if_neg h, List.find?_cons_of_neg _ (by simpa using h)]
      exact ih

end LearnPy

namespace LearnPy

/-!
## Claim theorems
-/

/-- C4: bubble_sort as implemented identically in nd.py, night.py and
eye.py leaves the list a permutation of the original input arranged in
non-decreasing order. -/
theorem bubble_sort_correct (arr : List Int) :
    (bubble_sort arr).Sorted (· ≤ ·) ∧ (bubble_sort arr).Perm arr := by
  constructor
  · unfold bubble_sort
    rw [List.range_eq_range']
    apply bubble_loop_sorted arr.length arr.length 0 arr
    · omega
    · rfl
    · simp [List.drop_length]
    · simp [List.drop_length]
  · unfold bubble_sort
    rw [List.range_eq_range']
    exact bubble_loop_perm _ _ _ _

/-- C1: bubble_sort of shree.py evaluated at the failing input [2, 1]:
the broken swap line arr[j], arr[j+1] = arr[j], arr[j] duplicates the
larger element, producing [2, 2], which is not a permutation of the
input, so the list is not sorted into a permutation of the original. -/
theorem shree_bubble_sort_failure :
    shree_bubble_sort [2, 1] = [2, 2] ∧
    ¬ (shree_bubble_sort [2, 1]).Perm [2, 1] := by
  decide

/-- C3: merge_sort as implemented identically in nd.py, shree.py and
eye.py leaves the list a permutation of the original input in
non-decreasing order. -/
theorem merge_sort_correct (arr : List Int) :
    (merge_sort arr).Sorted (· ≤ ·) ∧ (merge_sort arr).Perm arr := by
  induction arr using merge_sort.induct with
  | case1 l h ih1 ih2 =>
    rw [merge_sort, if_pos h]
    constructor
    · exact merge_sorted _ _ ih1.1 ih2.1
    · refine (merge_perm _ _).trans ?_
      refine (ih1.2.append ih2.2).trans ?_
      rw [List.take_append_drop]
  | case2 l h =>
    rw [merge_sort, if_neg h]
    constructor
    · match l with
      | [] => simp
      | [x] => simp
      | x :: y :: rest => simp at h
    · exact List.Perm.refl l

/-- C5: quick_sort of nd.py returns a list that is a permutation of its
input arranged in non-decreasing order. -/
theorem quick_sort_correct (arr : List Int) :
    (quick_sort arr).Sorted (· ≤ ·) ∧ (quick_sort arr).Perm arr :=
  ⟨quick_sort_sorted_aux arr.length arr le_rfl,
    quick_sort_perm_aux arr.length arr le_rfl⟩

/-- C2, counterexample: the numeric parses of console input at
ml_procedural.py line 167 (menu), line 174 (algorithm submenu), lines
117-118 (both prompts of compare_two_algorithms), analyiz.py line 24 and
4.py line 50 (display_data) have no surrounding try/except, so the
non-numeric input "abc" raises a ValueError that propagates unhandled at
each of them, refuting the claim that every numeric parse of console
input is wrapped in a handler. -/
theorem numeric_parse_unhandled_cx :
    ml_menu_step "abc" = PyResult.exn PyExn.valueError ∧
    ml_choose_algorithm "abc" = PyResult.exn PyExn.valueError ∧
    ml_compare_two_algorithms "abc" "1" = PyResult.exn PyExn.valueError ∧
    ml_compare_two_algorithms "1" "abc" = PyResult.exn PyExn.valueError ∧
    analyiz_display_data "abc" = PyResult.exn PyExn.valueError ∧
    four_display_data "abc" = PyResult.exn PyExn.valueError := by
  decide

/-- C2, amended: only display_data of ml_procedural.py wraps its numeric
parse in a ValueError handler that prints a message and returns normally;
the parses in the ml_procedural.py menu, its algorithm submenu and
compare_two_algorithms, and in display_data of analyiz.py and 4.py are
unwrapped, so a ValueError there propagates unhandled (the second
compare prompt is covered at a concrete input by the counterexample
theorem). -/
theorem numeric_parse_handling (s t : String)
    (h : py_int s = PyResult.exn PyExn.valueError) :
    ml_display_data s = PyResult.ok none ∧
    ml_menu_step s = PyResult.exn PyExn.valueError ∧
    ml_choose_algorithm s = PyResult.exn PyExn.valueError ∧
    ml_compare_two_algorithms s t = PyResult.exn PyExn.valueError ∧
    analyiz_display_data s = PyResult.exn PyExn.valueError ∧
    four_display_data s = PyResult.exn PyExn.valueError := by
  refine ⟨?_, ?_, ?_, ?_, ?_, ?_⟩
  · rw [ml_display_data, h]
  · rw [ml_menu_step, h]
  · rw [ml_choose_algorithm, h]
  · rw [ml_compare_two_algorithms, h]
  · rw [analyiz_display_data, h]
  · rw [four_display_data, h]

/-- C2, witness: the amended behaviour at the concrete inputs "abc" (for
the failing parse) and "1" (for the second compare prompt). -/
theorem numeric_parse_handling_witness :
    py_int "abc" = PyResult.exn PyExn.valueError ∧
    (ml_display_data "abc" = PyResult.ok none ∧
      ml_menu_step "abc" = PyResult.exn PyExn.valueError ∧
      ml_choose_algorithm "abc" = PyResult.exn PyExn.valueError ∧
      ml_compare_two_algorithms "abc" "1" = PyResult.exn PyExn.valueError ∧
      analyiz_display_data "abc" = PyResult.exn PyExn.valueError ∧
      four_display_data "abc" = PyResult.exn PyExn.valueError) :=
  ⟨by decide, numeric_parse_handling "abc" "1" (by decide)⟩

/-- C6: load_data (analyiz.py lines 13-20, ml_procedural.py lines 12-26)
returns the parsed frame exactly when the read succeeds, returns None
after printing an error message exactly when the read raises
FileNotFoundError, and catches no other exception: any other exception
propagates. -/
theorem load_data_spec (read : String → PyResult DataFrame) (path : String) :
    (∀ df, (load_data read path).1 = PyResult.ok (some df)
      ↔ read path = PyResult.ok df) ∧
    (((load_data read path).1 = PyResult.ok none
        ∧ (load_data read path).2
          = ["Error: The file " ++ path ++ " does not exist."])
      ↔ read path = PyResult.exn PyExn.fileNotFoundError) ∧
    (∀ e, (load_data read path).1 = PyResult.exn e
      ↔ (read path = PyResult.exn e ∧ e ≠ PyExn.fileNotFoundError)) := by
  have hbase := load_data_cases read path
  refine ⟨hbase.1, ?_, hbase.2.2⟩
  constructor
  · intro hpair
    exact (hbase.2.1).mp hpair.1
  · intro hr
    refine ⟨(hbase.2.1).mpr hr, ?_⟩
    rw [load_data, hr]

/-- C7: the key listener of game_key_logger.py stops exactly when the
escape key is released: on_release returns False exactly for
keyboard.Key.esc, on_press always returns None, a press never stops the
listener and is logged, a non-escape release never stops the listener and
is logged, and the whole run stops exactly when some event is a release
of the escape key. -/
theorem key_listener_spec (k : PKey) (evs : List KEvent) :
    (on_release k = some false ↔ k = PKey.esc) ∧
    (on_press k).1 = none ∧
    ((listener_run evs).2 = true ↔ KEvent.release PKey.esc ∈ evs) ∧
    listener_run (KEvent.press k :: evs)
      = (KEvent.press k :: (listener_run evs).1, (listener_run evs).2) ∧
    listener_run (KEvent.release k :: evs)
      = if k = PKey.esc then ([KEvent.release k], true)
        else (KEvent.release k :: (listener_run evs).1, (listener_run evs).2) :=
  ⟨on_release_false_iff k, rfl, listener_stops_iff evs,
    listener_press_step k evs, listener_release_step k evs⟩

/-- C8: the menu loops of analyiz.py and shree.py terminate exactly when
the user enters the designated exit choice (5 and 3 respectively), each
recognized choice maps to its dispatch target, and every unrecognized
choice yields the invalid outcome after which the loop re-displays the
menu. -/
theorem menu_loop_spec (c : String) (inputs : List String) :
    (analyiz_menu_step c = .exited ↔ c = "5") ∧
    (shree_menu_step c = .exited ↔ c = "3") ∧
    ((menu_loop analyiz_menu_step inputs).isSome ↔ "5" ∈ inputs) ∧
    ((menu_loop shree_menu_step inputs).isSome ↔ "3" ∈ inputs) ∧
    (analyiz_menu_step c = .invalid ↔ c ∉ (["1", "2", "3", "4", "5"] : List String)) ∧
    (shree_menu_step c = .invalid ↔ c ∉ (["1", "2", "3"] : List String)) ∧
    analyiz_menu_step "1" = .dispatch "display_data" ∧
    analyiz_menu_step "2" = .dispatch "choose_algorithm" ∧
    analyiz_menu_step "3" = .dispatch "compare_two_algorithms" ∧
    analyiz_menu_step "4" = .dispatch "compare_all_algorithms" ∧
    shree_menu_step "1" = .dispatch "run_analysis" ∧
    shree_menu_step "2" = .dispatch "chart_menu" :=
  ⟨analyiz_exited_iff c, shree_exited_iff c,
    menu_loop_isSome analyiz_menu_step "5" analyiz_exited_iff inputs,
    menu_loop_isSome shree_menu_step "3" shree_exited_iff inputs,
    analyiz_invalid_iff c, shree_invalid_iff c,
    by decide, by decide, by decide, by decide, by decide, by decide⟩

/-- C9: for every nonnegative requested row count n, display_data of
ml_procedural.py passes the clamp min(n, 200) to data.head, so when the
frame has at least min(n, 200) rows exactly min(n, 200) rows print, and
never more than 200. -/
theorem display_rows_clamp_spec (n : Int) (total : Nat) (hn : 0 ≤ n)
    (htot : (min n 200).toNat ≤ total) :
    display_rows_clamp n = min n 200 ∧
    pandas_head_count (display_rows_clamp n) total = (min n 200).toNat ∧
    pandas_head_count (display_rows_clamp n) total ≤ 200 := by
  have hc : display_rows_clamp n = min n 200 := by
    rw [display_rows_clamp]
    split_ifs with h
    · omega
    · omega
  refine ⟨hc, ?_, ?_⟩
  · rw [hc, pandas_head_count, if_pos (by omega)]
    omega
  · rw [hc, pandas_head_count, if_pos (by omega)]
    omega

/-- C9, witness: the concrete input 250 on a 300-row frame is clamped to
exactly 200 printed rows. -/
theorem display_rows_clamp_spec_witness :
    (0 ≤ (250 : Int) ∧ (min (250 : Int) 200).toNat ≤ 300) ∧
    (display_rows_clamp 250 = min (250 : Int) 200 ∧
      pandas_head_count (display_rows_clamp 250) 300 = (min (250 : Int) 200).toNat ∧
      pandas_head_count (display_rows_clamp 250) 300 ≤ 200) :=
  ⟨⟨by decide, by decide⟩, display_rows_clamp_spec 250 300 (by decide) (by decide)⟩

/-- C10: the bonus rate of the sales calculator in 4.py is the rate of
the first slab whose half-open interval contains the sales value in lakhs
(with raw input above 1000 first divided by 100000), defaulting to 0 when
no slab matches; every converted value in the interval from 999 to 1000
lies outside every slab, so such sales receive no bonus despite exceeding
the top slab minimum of 15. -/
theorem bonus_slab_spec (raw : ℚ) (h1 : 999 ≤ to_lakh raw) (h2 : to_lakh raw ≤ 1000) :
    matched_bonus bonus_slabs (to_lakh raw) = 0 ∧
    ∀ w : ℚ, matched_bonus bonus_slabs w = first_slab_rate w := by
  constructor
  · rw [show bonus_slabs = [⟨0, 5, 0⟩, ⟨5, 10, 10⟩, ⟨10, 15, 12⟩, ⟨15, 999, 15⟩] from rfl]
    rw [matched_bonus, if_neg (by rintro ⟨_, hb⟩; simp at hb; linarith)]
    rw [matched_bonus, if_neg (by rintro ⟨_, hb⟩; simp at hb; linarith)]
    rw [matched_bonus, if_neg (by rintro ⟨_, hb⟩; simp at hb; linarith)]
    rw [matched_bonus, if_neg (by rintro ⟨_, hb⟩; simp at hb; linarith)]
    rfl
  · intro w
    exact matched_bonus_eq_find w bonus_slabs

/-- C10, witness: a raw sales entry of 999 (in lakhs, since it is not
above 1000) falls outside every slab and gets bonus rate 0. -/
theorem bonus_slab_spec_witness :
    (999 ≤ to_lakh 999 ∧ to_lakh 999 ≤ 1000) ∧
      matched_bonus bonus_slabs (to_lakh 999) = 0 :=
  ⟨⟨by decide, by decide⟩, (bonus_slab_spec 999 (by decide) (by decide)).1⟩

end LearnPy
